import Mathlib

/-!
Verification of the envelope-geometry engine and series colorizer of
`power_plotting/power_plot.py` (class `PerformancePlotter`).

The embedding models the two core computations of the source:
  * `_get_envelope_coords` (geometry engine): axis transform, linear-mode
    normalization against dataset-wide aggregates, ellipse parameters,
    100-point boundary sampling, reverse transform;
  * the color-index computation inside `add_data` (series colorizer).

Machine floats are modelled by exact reals (geometry) and exact rationals
(colorizer); `numpy` float arrays become lists of reals.
-/

/-- One input row of the DataFrame: power range bounds `pmin ≤ pmax` and
performance range bounds `fmin ≤ fmax` (invariants of valid data; the code
itself does not check them). The display name is irrelevant to geometry and
color and is omitted. -/
structure DeviceRecord where
  pmin : ℝ
  pmax : ℝ
  fmin : ℝ
  fmax : ℝ

/-- Error type named by the specification's error taxonomy (`DomainError`).
The source code contains no raise statement, so the exception-aware embedding
`getEnvelopeCoordsE` below never produces this value. -/
inductive DomainError where
  | domainError

/-- Python `int()` applied to an exact rational: truncation toward zero. -/
def pyInt (q : ℚ) : ℤ := if q < 0 then Int.ceil q else Int.floor q

/-- Line 69 of `power_plot.py`:
`color_idx = int((i / max(1, n_items - 1)) * (len(self.colors) - 1))`.
`i` is the row position, `nItems` the row count, `paletteLen` the palette
length; the division is Python float true division, modelled exactly. -/
def colorIdx (i nItems paletteLen : ℕ) : ℤ :=
  pyInt ((i : ℚ) / ((max 1 ((nItems : ℤ) - 1) : ℤ) : ℚ) * ((paletteLen : ℚ) - 1))

/-- Modelled from the spec's words, for comparison with `colorIdx` (claim C2):
`palette_index = round((index / max(1, total_count - 1)) * (palette_length - 1))`,
with rounding to the nearest integer instead of the code's `int` truncation. -/
def colorIdxSpec (i nItems paletteLen : ℕ) : ℤ :=
  round ((i : ℚ) / ((max 1 ((nItems : ℤ) - 1) : ℤ) : ℚ) * ((paletteLen : ℚ) - 1))

noncomputable section

/-- Line 20: the y-coordinates entering the geometry are `log10(f)` when log
mode is on and `f` unchanged otherwise. -/
def transformY (isLogY : Bool) (f : ℝ) : ℝ := if isLogY then Real.logb 10 f else f

/-- Lines 43 and 62: `10 ** y` reverses the log transform on output; identity
in linear mode. -/
def invTransformY (isLogY : Bool) (y : ℝ) : ℝ := if isLogY then (10 : ℝ) ^ y else y

/-- Maximum of a list of reals, seeded at the head (pandas `Series.max` over a
column); the value on the empty list is junk (pandas would give NaN). -/
def listMax : List ℝ → ℝ
  | [] => 0
  | x :: xs => xs.foldl max x

/-- Minimum of a list of reals, seeded at the head (pandas `Series.min`). -/
def listMin : List ℝ → ℝ
  | [] => 0
  | x :: xs => xs.foldl min x

/-- Line 26: `x_range = df_context['pmax'].max() - df_context['pmin'].min()`. -/
def xRange (df : List DeviceRecord) : ℝ :=
  listMax (df.map DeviceRecord.pmax) - listMin (df.map DeviceRecord.pmin)

/-- Line 27: `y_range = df_context['fmax'].max() - df_context['fmin'].min()`. -/
def yRange (df : List DeviceRecord) : ℝ :=
  listMax (df.map DeviceRecord.fmax) - listMin (df.map DeviceRecord.fmin)

/-- Lines 25-34: the normalization scale factor.  When a dataset context is
present and the mode is linear, `scale_y = x_range / y_range if y_range != 0
else 1.0`; on every other path `scale_y = 1.0`. -/
def scaleY (isLogY : Bool) (ctx : Option (List DeviceRecord)) : ℝ :=
  match ctx with
  | some df =>
      if isLogY = false then (if yRange df ≠ 0 then xRange df / yRange df else 1) else 1
  | none => 1

/-- `numpy.arctan2 y x`: the angle of the point `(x, y)`, in `(-π, π]`. -/
def arctan2 (y x : ℝ) : ℝ :=
  if 0 < x then Real.arctan (y / x)
  else if x < 0 then
    (if 0 ≤ y then Real.arctan (y / x) + Real.pi else Real.arctan (y / x) - Real.pi)
  else if 0 < y then Real.pi / 2
  else if y < 0 then -(Real.pi / 2)
  else 0

/-- Line 38: `dx = x2 - x1`. -/
def envDx (pmin pmax : ℝ) : ℝ := pmax - pmin

/-- Line 38: `dy_norm = y2_norm - y1_norm`, where `y_norm` is the transformed
y-coordinate times the scale factor `sy`. -/
def envDy (isLogY : Bool) (sy fmin fmax : ℝ) : ℝ :=
  transformY isLogY fmax * sy - transformY isLogY fmin * sy

/-- Line 37: `cx = (x1 + x2) / 2`. -/
def envCx (pmin pmax : ℝ) : ℝ := (pmin + pmax) / 2

/-- Line 37: `cy_norm = (y1_norm + y2_norm) / 2`. -/
def envCy (isLogY : Bool) (sy fmin fmax : ℝ) : ℝ :=
  (transformY isLogY fmin * sy + transformY isLogY fmax * sy) / 2

/-- Line 39: `dist = sqrt(dx**2 + dy_norm**2)`. -/
def envDist (isLogY : Bool) (sy pmin pmax fmin fmax : ℝ) : ℝ :=
  Real.sqrt (envDx pmin pmax ^ 2 + envDy isLogY sy fmin fmax ^ 2)

/-- Line 40: `angle = arctan2(dy_norm, dx)`. -/
def envAngle (isLogY : Bool) (sy pmin pmax fmin fmax : ℝ) : ℝ :=
  arctan2 (envDy isLogY sy fmin fmax) (envDx pmin pmax)

/-- Line 45: semi-major axis `a = dist / 2`. -/
def envA (isLogY : Bool) (sy pmin pmax fmin fmax : ℝ) : ℝ :=
  envDist isLogY sy pmin pmax fmin fmax / 2

/-- Lines 46-51: semi-minor axis, `b = (dx * dy_norm) / (2 * dist)` in log
mode and `b = a * 0.2` in linear mode. -/
def envB (isLogY : Bool) (sy pmin pmax fmin fmax : ℝ) : ℝ :=
  if isLogY then
    envDx pmin pmax * envDy isLogY sy fmin fmax /
      (2 * envDist isLogY sy pmin pmax fmin fmax)
  else envA isLogY sy pmin pmax fmin fmax * 0.2

/-- Line 53: sample `j` of `t = np.linspace(0, 2*np.pi, 100)`, that is
`j * (2π / 99)` for `j = 0, …, 99`. -/
def tval (j : ℕ) : ℝ := 2 * Real.pi * j / 99

/-- Lines 36-62 of `_get_envelope_coords`, after the scale factor has been
computed: degenerate early return when `dist == 0` (a single point, with the
y value reverse-transformed from `y1`), otherwise the 100 rotated boundary
points, whose y values are divided by the scale factor and reverse
log-transformed; x values pass through untouched. -/
def envelopeCore (isLogY : Bool) (sy pmin pmax fmin fmax : ℝ) : List ℝ × List ℝ :=
  if envDist isLogY sy pmin pmax fmin fmax = 0 then
    ([envCx pmin pmax], [invTransformY isLogY (transformY isLogY fmin)])
  else
    ((List.range 100).map fun j =>
        envCx pmin pmax +
          (envA isLogY sy pmin pmax fmin fmax * Real.cos (tval j) *
              Real.cos (envAngle isLogY sy pmin pmax fmin fmax) -
            envB isLogY sy pmin pmax fmin fmax * Real.sin (tval j) *
              Real.sin (envAngle isLogY sy pmin pmax fmin fmax)),
     (List.range 100).map fun j =>
        invTransformY isLogY
          ((envCy isLogY sy fmin fmax +
              (envA isLogY sy pmin pmax fmin fmax * Real.cos (tval j) *
                  Real.sin (envAngle isLogY sy pmin pmax fmin fmax) +
                envB isLogY sy pmin pmax fmin fmax * Real.sin (tval j) *
                  Real.cos (envAngle isLogY sy pmin pmax fmin fmax))) / sy))

/-- `_get_envelope_coords(pmin, pmax, fmin, fmax, df_context)` in full: the
scale factor from the optional dataset context, then the geometry. -/
def getEnvelopeCoords (isLogY : Bool) (pmin pmax fmin fmax : ℝ)
    (ctx : Option (List DeviceRecord)) : List ℝ × List ℝ :=
  envelopeCore isLogY (scaleY isLogY ctx) pmin pmax fmin fmax

/-- Exception-aware view of `_get_envelope_coords`: the Python function body
contains no raise statement and no operation that raises on real inputs, so
every path returns `Except.ok`. -/
def getEnvelopeCoordsE (isLogY : Bool) (pmin pmax fmin fmax : ℝ)
    (ctx : Option (List DeviceRecord)) : Except DomainError (List ℝ × List ℝ) :=
  Except.ok (getEnvelopeCoords isLogY pmin pmax fmin fmax ctx)

/-- Lines 64-72 of `add_data`: each row's envelope is computed with the whole
DataFrame as `df_context`. -/
def addData (isLogY : Bool) (df : List DeviceRecord) : List (List ℝ × List ℝ) :=
  df.map fun r => getEnvelopeCoords isLogY r.pmin r.pmax r.fmin r.fmax (some df)

/-- A dataset whose performance values are uniformly rescaled by `k`
(claim C5): `fmin` and `fmax` multiplied, power bounds untouched. -/
def scaleF (k : ℝ) (r : DeviceRecord) : DeviceRecord :=
  ⟨r.pmin, r.pmax, k * r.fmin, k * r.fmax⟩

end

/-! ## Colorizer lemmas -/

/-- Python `int()` agrees with the floor on nonnegative rationals. -/
theorem pyInt_eq_floor {q : ℚ} (hq : 0 ≤ q) : pyInt q = Int.floor q :=
  if_neg (not_lt.mpr hq)

/-- The divisor `max(1, n_items - 1)` is positive. -/
theorem colorIdx_divisor_pos (nItems : ℕ) :
    (0 : ℚ) < ((max 1 ((nItems : ℤ) - 1) : ℤ) : ℚ) := by
  have h1 : (1 : ℤ) ≤ max 1 ((nItems : ℤ) - 1) := le_max_left _ _
  exact_mod_cast lt_of_lt_of_le zero_lt_one h1

/-- With a nonempty palette, the rational the colorizer truncates is
nonnegative. -/
theorem colorIdx_arg_nonneg (i nItems L : ℕ) (hL : 1 ≤ L) :
    (0 : ℚ) ≤ (i : ℚ) / ((max 1 ((nItems : ℤ) - 1) : ℤ) : ℚ) * ((L : ℚ) - 1) := by
  have hm := colorIdx_divisor_pos nItems
  have hL1 : (0 : ℚ) ≤ (L : ℚ) - 1 := by
    have h1 : (1 : ℚ) ≤ (L : ℚ) := by exact_mod_cast hL
    linarith
  exact mul_nonneg (div_nonneg (by positivity) hm.le) hL1

/-- C2 (corrected): the color index the code assigns to row `i` of `n` rows is
the FLOOR (Python `int()` truncation, on a nonnegative value) of
`(i / max(1, n - 1)) * (palette_length - 1)`, not the nearest integer. -/
theorem colorIdx_is_floor_not_round (i nItems L : ℕ) (hL : 1 ≤ L) :
    colorIdx i nItems L
      = Int.floor ((i : ℚ) / ((max 1 ((nItems : ℤ) - 1) : ℤ) : ℚ) * ((L : ℚ) - 1)) := by
  unfold colorIdx
  exact pyInt_eq_floor (colorIdx_arg_nonneg i nItems L hL)

/-- C2 witness: the floor formula evaluated at row 2 of 5 rows with a 7-color
palette. -/
theorem colorIdx_is_floor_not_round_witness :
    colorIdx 2 5 7
      = Int.floor ((2 : ℚ) / ((max 1 ((5 : ℤ) - 1) : ℤ) : ℚ) * ((7 : ℚ) - 1)) := by
  have h := colorIdx_is_floor_not_round 2 5 7 (by norm_num)
  exact_mod_cast h

/-- C2 counterexample: at row 1 of 3 rows with a 4-color palette the exact
value is 3/2; the code truncates to palette index 1 while the spec's `round`
formula gives 2. -/
theorem colorIdx_differs_from_round_at_1_3_4 :
    colorIdx 1 3 4 = 1 ∧ colorIdxSpec 1 3 4 = 2 := by
  constructor
  · norm_num [colorIdx, pyInt]
  · norm_num [colorIdxSpec, round_eq]

/-- C8 (corrected): row 0 gets the first palette color, row `n - 1` gets the
last WHENEVER `n ≥ 2`, the palette index is monotone in the row index, and a
single-row dataset gets the first color with no division by zero (the divisor
is `max(1, n - 1)`). -/
theorem colorIdx_endpoint_and_monotone (n L : ℕ) (hn : 1 ≤ n) (hL : 1 ≤ L) :
    colorIdx 0 n L = 0
    ∧ (2 ≤ n → colorIdx (n - 1) n L = (L : ℤ) - 1)
    ∧ (∀ i j : ℕ, i ≤ j → colorIdx i n L ≤ colorIdx j n L)
    ∧ (n = 1 → colorIdx 0 n L = 0) := by
  have hm := colorIdx_divisor_pos n
  have hL1 : (0 : ℚ) ≤ (L : ℚ) - 1 := by
    have h1 : (1 : ℚ) ≤ (L : ℚ) := by exact_mod_cast hL
    linarith
  have hfloor : ∀ i : ℕ, colorIdx i n L
      = Int.floor ((i : ℚ) / ((max 1 ((n : ℤ) - 1) : ℤ) : ℚ) * ((L : ℚ) - 1)) := by
    intro i
    unfold colorIdx
    exact pyInt_eq_floor (colorIdx_arg_nonneg i n L hL)
  have hzero : colorIdx 0 n L = 0 := by
    rw [hfloor 0]
    simp
  refine ⟨hzero, ?_, ?_, fun _ => hzero⟩
  · intro h2
    rw [hfloor (n - 1)]
    have hmax : max 1 ((n : ℤ) - 1) = (n : ℤ) - 1 := max_eq_right (by omega)
    have hcast : ((n - 1 : ℕ) : ℚ) = (n : ℚ) - 1 := by
      have h : ((n - 1 : ℕ) : ℚ) = ((n : ℕ) : ℚ) - ((1 : ℕ) : ℚ) := Nat.cast_sub hn
      simpa using h
    have hne : (n : ℚ) - 1 ≠ 0 := by
      have h2q : (2 : ℚ) ≤ (n : ℚ) := by exact_mod_cast h2
      have : (0 : ℚ) < (n : ℚ) - 1 := by linarith
      exact ne_of_gt this
    rw [hmax, hcast]
    have hcoe : (((n : ℤ) - 1 : ℤ) : ℚ) = (n : ℚ) - 1 := by push_cast; ring
    rw [hcoe, div_self hne, one_mul]
    have hLcoe : (L : ℚ) - 1 = (((L : ℤ) - 1 : ℤ) : ℚ) := by push_cast; ring
    rw [hLcoe, Int.floor_intCast]
  · intro i j hij
    rw [hfloor i, hfloor j]
    apply Int.floor_le_floor
    apply mul_le_mul_of_nonneg_right _ hL1
    exact (div_le_div_iff_of_pos_right hm).mpr (by exact_mod_cast hij)

/-- C8 witness: with 4 rows and a 10-color palette, row 3 gets the last
palette index 9. -/
theorem colorIdx_endpoint_witness : colorIdx (4 - 1) 4 10 = (10 : ℤ) - 1 :=
  (colorIdx_endpoint_and_monotone 4 10 (by norm_num) (by norm_num)).2.1 (by norm_num)

/-- C8 counterexample: with a single row and a 2-color palette, row index
`n - 1 = 0` is assigned palette index 0, not the last index 1 the claim
demands for row `n - 1`. -/
theorem colorIdx_single_row_not_last :
    colorIdx 0 1 2 = 0 ∧ ¬(colorIdx 0 1 2 = (2 : ℤ) - 1) := by
  have h : colorIdx 0 1 2 = 0 := by norm_num [colorIdx, pyInt]
  exact ⟨h, by rw [h]; norm_num⟩

/-! ## Error-handling behavior of the geometry engine -/

/-- C1 (corrected): `_get_envelope_coords` performs no input validation and
contains no raise statement: on every input, including non-positive
performance bounds under log mode and reversed bounds `pmin > pmax` or
`fmin > fmax`, it returns normally. -/
theorem getEnvelopeCoordsE_never_raises (isLogY : Bool) (pmin pmax fmin fmax : ℝ)
    (ctx : Option (List DeviceRecord)) :
    ∃ v, getEnvelopeCoordsE isLogY pmin pmax fmin fmax ctx = Except.ok v :=
  ⟨_, rfl⟩

/-- C1 counterexample: in log mode with `fmin = 0` (non-positive bound) and
`pmin = 10 > 5 = pmax` (ordering violated) the engine still returns normally
instead of raising `DomainError`. -/
theorem getEnvelopeCoordsE_ok_at_invalid_input :
    ∃ v, getEnvelopeCoordsE true 10 5 0 1 none = Except.ok v :=
  ⟨_, rfl⟩

/-! ## Degenerate record and normalization scale -/

/-- C3: when the two corner points coincide (in particular `pmin = pmax` and
`fmin = fmax`, which makes `dist = 0` for every scale factor), the engine
returns a single point: one x value `cx` and one y value, the
reverse-transformed center — not a 100-point boundary polyline. -/
theorem envelope_degenerate_single_point (isLogY : Bool) (pmin pmax fmin fmax : ℝ)
    (ctx : Option (List DeviceRecord)) (hp : pmin = pmax) (hf : fmin = fmax) :
    getEnvelopeCoords isLogY pmin pmax fmin fmax ctx
      = ([(pmin + pmax) / 2], [invTransformY isLogY (transformY isLogY fmin)])
    ∧ (getEnvelopeCoords isLogY pmin pmax fmin fmax ctx).1.length = 1
    ∧ (getEnvelopeCoords isLogY pmin pmax fmin fmax ctx).2.length = 1 := by
  subst hp
  subst hf
  have hdx : envDx pmin pmin = 0 := sub_self pmin
  have hdy : envDy isLogY (scaleY isLogY ctx) fmin fmin = 0 := sub_self _
  have hdist : envDist isLogY (scaleY isLogY ctx) pmin pmin fmin fmin = 0 := by
    rw [envDist, hdx, hdy]
    norm_num
  have hres : getEnvelopeCoords isLogY pmin pmin fmin fmin ctx
      = ([(pmin + pmin) / 2], [invTransformY isLogY (transformY isLogY fmin)]) := by
    rw [getEnvelopeCoords, envelopeCore, if_pos hdist, envCx]
  exact ⟨hres, by simp [hres], by simp [hres]⟩

/-- C3 witness: the degenerate record `(2, 2, 3, 3)` in log mode yields the
single point. -/
theorem envelope_degenerate_single_point_witness :
    getEnvelopeCoords true 2 2 3 3 none
      = ([(2 + 2) / 2], [invTransformY true (transformY true 3)])
    ∧ (getEnvelopeCoords true 2 2 3 3 none).1.length = 1
    ∧ (getEnvelopeCoords true 2 2 3 3 none).2.length = 1 :=
  envelope_degenerate_single_point true 2 2 3 3 none rfl rfl

/-- C4: in linear mode with a dataset context the scale factor is
`x_range / y_range`, falling back to `1.0` (not failing) when `y_range = 0`;
the y quantities entering the geometry are the raw bounds times the scale
factor; in log mode the scale factor is always `1.0`; and the full call is
the geometry at that scale factor. -/
theorem linear_normalization_scale (df : List DeviceRecord)
    (pmin pmax fmin fmax s : ℝ) :
    (yRange df ≠ 0 → scaleY false (some df) = xRange df / yRange df)
    ∧ (yRange df = 0 → scaleY false (some df) = 1)
    ∧ (∀ ctx : Option (List DeviceRecord), scaleY true ctx = 1)
    ∧ envDy false s fmin fmax = fmax * s - fmin * s
    ∧ envCy false s fmin fmax = (fmin * s + fmax * s) / 2
    ∧ getEnvelopeCoords false pmin pmax fmin fmax (some df)
        = envelopeCore false (scaleY false (some df)) pmin pmax fmin fmax := by
  refine ⟨?_, ?_, ?_, ?_, ?_, rfl⟩
  · intro h
    simp [scaleY, h]
  · intro h
    simp [scaleY, h]
  · intro ctx
    cases ctx with
    | none => rfl
    | some df2 => simp [scaleY]
  · simp [envDy, transformY]
  · simp [envCy, transformY]

/-- C4 witness: for the one-record dataset `(0, 2, 0, 1)` the y-range is 1, so
the scale factor is `x_range / y_range`. -/
theorem linear_normalization_scale_witness :
    scaleY false (some [⟨0, 2, 0, 1⟩])
      = xRange [⟨0, 2, 0, 1⟩] / yRange [⟨0, 2, 0, 1⟩] :=
  (linear_normalization_scale [⟨0, 2, 0, 1⟩] 0 0 0 0 0).1
    (by norm_num [yRange, listMax, listMin])

/-- C9: in linear mode with no dataset context the scale factor is `1.0` and
the geometry runs on the raw bounds; this coincides with passing any dataset
whose x-range equals its y-range. -/
theorem linear_no_context_no_normalization (pmin pmax fmin fmax : ℝ)
    (df : List DeviceRecord) (hxy : xRange df = yRange df) :
    scaleY false none = 1
    ∧ getEnvelopeCoords false pmin pmax fmin fmax none
        = envelopeCore false 1 pmin pmax fmin fmax
    ∧ getEnvelopeCoords false pmin pmax fmin fmax (some df)
        = getEnvelopeCoords false pmin pmax fmin fmax none := by
  have hs : scaleY false (some df) = 1 := by
    by_cases h : yRange df = 0
    · simp [scaleY, h]
    · simp [scaleY, h, hxy, div_self h]
  refine ⟨rfl, rfl, ?_⟩
  show envelopeCore false (scaleY false (some df)) pmin pmax fmin fmax
      = envelopeCore false (scaleY false none) pmin pmax fmin fmax
  rw [hs]
  rfl

/-- C9 witness: the dataset `[(0, 1, 0, 1)]` has equal x-range and y-range 1,
and passing it in linear mode gives the same result as passing no context. -/
theorem linear_no_context_no_normalization_witness :
    scaleY false none = 1
    ∧ getEnvelopeCoords false 0 1 0 2 none = envelopeCore false 1 0 1 0 2
    ∧ getEnvelopeCoords false 0 1 0 2 (some [⟨0, 1, 0, 1⟩])
        = getEnvelopeCoords false 0 1 0 2 none :=
  linear_no_context_no_normalization 0 1 0 2 [⟨0, 1, 0, 1⟩]
    (by norm_num [xRange, yRange, listMax, listMin])

/-! ## One render pass: shared scale factor and polyline shape -/

/-- C6: `add_data` computes every record's geometry against the same dataset
context, hence one shared scale factor for the whole render pass, and that
factor is derived from the dataset-wide aggregates `max pmax - min pmin` and
`max fmax - min fmin` over the full record list, never from a single record. -/
theorem addData_uniform_scale (isLogY : Bool) (df : List DeviceRecord) (i : ℕ)
    (r : DeviceRecord) (hr : df[i]? = some r) :
    (addData isLogY df)[i]?
      = some (envelopeCore isLogY (scaleY isLogY (some df)) r.pmin r.pmax r.fmin r.fmax)
    ∧ scaleY false (some df)
        = (if yRange df = 0 then 1
           else (listMax (df.map DeviceRecord.pmax) - listMin (df.map DeviceRecord.pmin))
             / (listMax (df.map DeviceRecord.fmax) - listMin (df.map DeviceRecord.fmin))) := by
  constructor
  · rw [addData, List.getElem?_map, hr]
    rfl
  · by_cases h : yRange df = 0
    · simp [scaleY, h]
    · simp [scaleY, h, xRange, yRange]

/-- C6 witness: the single-record pass over `[(1, 2, 3, 4)]`. -/
theorem addData_uniform_scale_witness :
    (addData false [⟨1, 2, 3, 4⟩])[0]?
      = some (envelopeCore false (scaleY false (some [⟨1, 2, 3, 4⟩]))
          (DeviceRecord.mk 1 2 3 4).pmin (DeviceRecord.mk 1 2 3 4).pmax
          (DeviceRecord.mk 1 2 3 4).fmin (DeviceRecord.mk 1 2 3 4).fmax) :=
  (addData_uniform_scale false [⟨1, 2, 3, 4⟩] 0 ⟨1, 2, 3, 4⟩ rfl).1

/-- C7: for a non-degenerate record the boundary polyline has exactly 100
points, sampled at `t_j = 2πj/99` covering `[0, 2π]`; point `j` is the local
ellipse point `(a cos t, b sin t)` rotated by the angle about the center, the
y value divided by the scale factor and reverse log-transformed, the x value
untouched; `a = dist/2`, `b = dx*dy/(2*dist)` in log mode and `a * 0.2` in
linear mode; the first and last samples coincide. -/
theorem envelope_polyline_100_points (isLogY : Bool) (sy pmin pmax fmin fmax : ℝ)
    (hd : envDist isLogY sy pmin pmax fmin fmax ≠ 0) :
    (envelopeCore isLogY sy pmin pmax fmin fmax).1.length = 100
    ∧ (envelopeCore isLogY sy pmin pmax fmin fmax).2.length = 100
    ∧ (envelopeCore isLogY sy pmin pmax fmin fmax).1[0]?
        = (envelopeCore isLogY sy pmin pmax fmin fmax).1[99]?
    ∧ (envelopeCore isLogY sy pmin pmax fmin fmax).2[0]?
        = (envelopeCore isLogY sy pmin pmax fmin fmax).2[99]?
    ∧ (∀ j : ℕ, j < 100 →
        (envelopeCore isLogY sy pmin pmax fmin fmax).1[j]?
          = some (envCx pmin pmax +
              (envA isLogY sy pmin pmax fmin fmax * Real.cos (tval j) *
                  Real.cos (envAngle isLogY sy pmin pmax fmin fmax) -
                envB isLogY sy pmin pmax fmin fmax * Real.sin (tval j) *
                  Real.sin (envAngle isLogY sy pmin pmax fmin fmax)))
        ∧ (envelopeCore isLogY sy pmin pmax fmin fmax).2[j]?
          = some (invTransformY isLogY
              ((envCy isLogY sy fmin fmax +
                  (envA isLogY sy pmin pmax fmin fmax * Real.cos (tval j) *
                      Real.sin (envAngle isLogY sy pmin pmax fmin fmax) +
                    envB isLogY sy pmin pmax fmin fmax * Real.sin (tval j) *
                      Real.cos (envAngle isLogY sy pmin pmax fmin fmax))) / sy)))
    ∧ envA isLogY sy pmin pmax fmin fmax = envDist isLogY sy pmin pmax fmin fmax / 2
    ∧ (isLogY = true →
        envB isLogY sy pmin pmax fmin fmax
          = envDx pmin pmax * envDy isLogY sy fmin fmax
              / (2 * envDist isLogY sy pmin pmax fmin fmax))
    ∧ (isLogY = false →
        envB isLogY sy pmin pmax fmin fmax = envA isLogY sy pmin pmax fmin fmax * 0.2)
    ∧ tval 0 = 0 ∧ tval 99 = 2 * Real.pi := by
  have ht0 : tval 0 = 0 := by simp [tval]
  have ht99 : tval 99 = 2 * Real.pi := by
    show 2 * Real.pi * ((99 : ℕ) : ℝ) / 99 = 2 * Real.pi
    push_cast
    exact mul_div_cancel_right₀ _ (by norm_num)
  have hget1 : ∀ j : ℕ, j < 100 →
      (envelopeCore isLogY sy pmin pmax fmin fmax).1[j]?
        = some (envCx pmin pmax +
            (envA isLogY sy pmin pmax fmin fmax * Real.cos (tval j) *
                Real.cos (envAngle isLogY sy pmin pmax fmin fmax) -
              envB isLogY sy pmin pmax fmin fmax * Real.sin (tval j) *
                Real.sin (envAngle isLogY sy pmin pmax fmin fmax))) := by
    intro j hj
    rw [envelopeCore, if_neg hd]
    simp [List.getElem?_map, List.getElem?_range hj]
  have hget2 : ∀ j : ℕ, j < 100 →
      (envelopeCore isLogY sy pmin pmax fmin fmax).2[j]?
        = some (invTransformY isLogY
            ((envCy isLogY sy fmin fmax +
                (envA isLogY sy pmin pmax fmin fmax * Real.cos (tval j) *
                    Real.sin (envAngle isLogY sy pmin pmax fmin fmax) +
                  envB isLogY sy pmin pmax fmin fmax * Real.sin (tval j) *
                    Real.cos (envAngle isLogY sy pmin pmax fmin fmax))) / sy)) := by
    intro j hj
    rw [envelopeCore, if_neg hd]
    simp [List.getElem?_map, List.getElem?_range hj]
  have hcos : Real.cos (tval 0) = Real.cos (tval 99) := by
    rw [ht0, ht99, Real.cos_zero, Real.cos_two_pi]
  have hsin : Real.sin (tval 0) = Real.sin (tval 99) := by
    rw [ht0, ht99, Real.sin_zero, Real.sin_two_pi]
  refine ⟨?_, ?_, ?_, ?_, fun j hj => ⟨hget1 j hj, hget2 j hj⟩, rfl, ?_, ?_, ht0, ht99⟩
  · rw [envelopeCore, if_neg hd]
    simp
  · rw [envelopeCore, if_neg hd]
    simp
  · rw [hget1 0 (by norm_num), hget1 99 (by norm_num), hcos, hsin]
  · rw [hget2 0 (by norm_num), hget2 99 (by norm_num), hcos, hsin]
  · intro h
    subst h
    simp [envB]
  · intro h
    subst h
    simp [envB]

/-- C7 witness: the linear-mode record `(0, 1, 0, 0)` at scale 1 has
`dist = 1 ≠ 0` and its boundary has 100 x values. -/
theorem envelope_polyline_100_points_witness :
    (envelopeCore false 1 0 1 0 0).1.length = 100 :=
  (envelope_polyline_100_points false 1 0 1 0 0
    (by norm_num [envDist, envDx, envDy, transformY, Real.sqrt_one])).1

/-! ## Aggregates under uniform performance rescaling -/

/-- Folding `max` over a list and seed both multiplied by a nonnegative
constant gives the constant times the original fold. -/
theorem foldl_max_mul (k : ℝ) (hk : 0 ≤ k) :
    ∀ (xs : List ℝ) (a : ℝ),
      List.foldl max (k * a) (xs.map fun x => k * x) = k * List.foldl max a xs := by
  intro xs
  induction xs with
  | nil => intro a; simp
  | cons b xs ih =>
      intro a
      simp only [List.map_cons, List.foldl_cons]
      rw [← mul_max_of_nonneg a b hk]
      exact ih (max a b)

/-- Folding `min` over a list and seed both multiplied by a nonnegative
constant gives the constant times the original fold. -/
theorem foldl_min_mul (k : ℝ) (hk : 0 ≤ k) :
    ∀ (xs : List ℝ) (a : ℝ),
      List.foldl min (k * a) (xs.map fun x => k * x) = k * List.foldl min a xs := by
  intro xs
  induction xs with
  | nil => intro a; simp
  | cons b xs ih =>
      intro a
      simp only [List.map_cons, List.foldl_cons]
      rw [← mul_min_of_nonneg a b hk]
      exact ih (min a b)

/-- The seed is below the `max` fold. -/
theorem le_foldl_max : ∀ (xs : List ℝ) (a : ℝ), a ≤ List.foldl max a xs := by
  intro xs
  induction xs with
  | nil => intro a; simp
  | cons b xs ih => intro a; exact le_trans (le_max_left a b) (ih (max a b))

/-- Every member is below the `max` fold. -/
theorem mem_le_foldl_max : ∀ (xs : List ℝ) (a x : ℝ), x ∈ xs → x ≤ List.foldl max a xs := by
  intro xs
  induction xs with
  | nil => intro a x h; exact absurd h (List.not_mem_nil x)
  | cons b xs ih =>
      intro a x h
      rcases List.mem_cons.mp h with h1 | h2
      · subst h1
        exact le_trans (le_max_right a x) (le_foldl_max xs (max a x))
      · exact ih (max a b) x h2

/-- The `min` fold is below the seed. -/
theorem foldl_min_le : ∀ (xs : List ℝ) (a : ℝ), List.foldl min a xs ≤ a := by
  intro xs
  induction xs with
  | nil => intro a; simp
  | cons b xs ih => intro a; exact le_trans (ih (min a b)) (min_le_left a b)

/-- The `min` fold is below every member. -/
theorem foldl_min_le_mem : ∀ (xs : List ℝ) (a x : ℝ), x ∈ xs → List.foldl min a xs ≤ x := by
  intro xs
  induction xs with
  | nil => intro a x h; exact absurd h (List.not_mem_nil x)
  | cons b xs ih =>
      intro a x h
      rcases List.mem_cons.mp h with h1 | h2
      · subst h1
        exact le_trans (foldl_min_le xs (min a x)) (min_le_right a x)
      · exact ih (min a b) x h2

/-- `listMax` scales by a nonnegative constant. -/
theorem listMax_map_mul (k : ℝ) (hk : 0 ≤ k) (l : List ℝ) :
    listMax (l.map fun x => k * x) = k * listMax l := by
  cases l with
  | nil => simp [listMax]
  | cons x xs =>
      simp only [List.map_cons, listMax]
      exact foldl_max_mul k hk xs x

/-- `listMin` scales by a nonnegative constant. -/
theorem listMin_map_mul (k : ℝ) (hk : 0 ≤ k) (l : List ℝ) :
    listMin (l.map fun x => k * x) = k * listMin l := by
  cases l with
  | nil => simp [listMin]
  | cons x xs =>
      simp only [List.map_cons, listMin]
      exact foldl_min_mul k hk xs x

/-- A member bounds `listMax` from below. -/
theorem le_listMax {x : ℝ} {l : List ℝ} (h : x ∈ l) : x ≤ listMax l := by
  cases l with
  | nil => exact absurd h (List.not_mem_nil x)
  | cons a xs =>
      simp only [listMax]
      rcases List.mem_cons.mp h with h1 | h2
      · subst h1
        exact le_foldl_max xs x
      · exact mem_le_foldl_max xs a x h2

/-- A member bounds `listMin` from above. -/
theorem listMin_le {x : ℝ} {l : List ℝ} (h : x ∈ l) : listMin l ≤ x := by
  cases l with
  | nil => exact absurd h (List.not_mem_nil x)
  | cons a xs =>
      simp only [listMin]
      rcases List.mem_cons.mp h with h1 | h2
      · subst h1
        exact foldl_min_le xs x
      · exact foldl_min_le_mem xs a x h2

/-- Rescaling performance leaves the power column unchanged. -/
theorem scaleF_map_pmax (k : ℝ) (df : List DeviceRecord) :
    (df.map (scaleF k)).map DeviceRecord.pmax = df.map DeviceRecord.pmax := by
  simp [List.map_map, Function.comp, scaleF]

/-- Rescaling performance leaves the power column unchanged. -/
theorem scaleF_map_pmin (k : ℝ) (df : List DeviceRecord) :
    (df.map (scaleF k)).map DeviceRecord.pmin = df.map DeviceRecord.pmin := by
  simp [List.map_map, Function.comp, scaleF]

/-- The `fmax` column of the rescaled dataset is the rescaled column. -/
theorem scaleF_map_fmax (k : ℝ) (df : List DeviceRecord) :
    (df.map (scaleF k)).map DeviceRecord.fmax
      = (df.map DeviceRecord.fmax).map fun x => k * x := by
  simp [List.map_map, Function.comp, scaleF]

/-- The `fmin` column of the rescaled dataset is the rescaled column. -/
theorem scaleF_map_fmin (k : ℝ) (df : List DeviceRecord) :
    (df.map (scaleF k)).map DeviceRecord.fmin
      = (df.map DeviceRecord.fmin).map fun x => k * x := by
  simp [List.map_map, Function.comp, scaleF]

/-- The dataset x-range is invariant under performance rescaling. -/
theorem xRange_scaleF (k : ℝ) (df : List DeviceRecord) :
    xRange (df.map (scaleF k)) = xRange df := by
  rw [xRange, xRange, scaleF_map_pmax, scaleF_map_pmin]

/-- The dataset y-range scales by the rescaling constant. -/
theorem yRange_scaleF (k : ℝ) (hk : 0 ≤ k) (df : List DeviceRecord) :
    yRange (df.map (scaleF k)) = k * yRange df := by
  rw [yRange, yRange, scaleF_map_fmax, scaleF_map_fmin,
    listMax_map_mul k hk, listMin_map_mul k hk]
  ring

/-- C5: in linear mode, multiplying every record's performance bounds (hence
the dataset y-range) by a positive constant leaves each record's rotation
angle — the `arctan2` of the normalized differences, pre-reverse-transform —
unchanged. -/
theorem linear_angle_invariant_under_y_rescale (df : List DeviceRecord)
    (r : DeviceRecord) (k : ℝ) (hmem : r ∈ df)
    (hord : ∀ s ∈ df, s.fmin ≤ s.fmax) (hk : 0 < k) :
    envAngle false (scaleY false (some (df.map (scaleF k))))
        (scaleF k r).pmin (scaleF k r).pmax (scaleF k r).fmin (scaleF k r).fmax
      = envAngle false (scaleY false (some df)) r.pmin r.pmax r.fmin r.fmax := by
  have hyr : yRange (df.map (scaleF k)) = k * yRange df := yRange_scaleF k hk.le df
  have hxr : xRange (df.map (scaleF k)) = xRange df := xRange_scaleF k df
  have hdx : envDx (scaleF k r).pmin (scaleF k r).pmax = envDx r.pmin r.pmax := rfl
  suffices hdy : envDy false (scaleY false (some (df.map (scaleF k))))
      (scaleF k r).fmin (scaleF k r).fmax
      = envDy false (scaleY false (some df)) r.fmin r.fmax by
    rw [envAngle, envAngle, hdy, hdx]
  by_cases h0 : yRange df = 0
  · have hs1 : scaleY false (some df) = 1 := by simp [scaleY, h0]
    have hy0 : yRange (df.map (scaleF k)) = 0 := by rw [hyr, h0, mul_zero]
    have hs2 : scaleY false (some (df.map (scaleF k))) = 1 := by simp [scaleY, hy0]
    have hff : r.fmin = r.fmax := by
      have h1 : r.fmax ≤ listMax (df.map DeviceRecord.fmax) :=
        le_listMax (List.mem_map_of_mem DeviceRecord.fmax hmem)
      have h2 : listMin (df.map DeviceRecord.fmin) ≤ r.fmin :=
        listMin_le (List.mem_map_of_mem DeviceRecord.fmin hmem)
      have h3 := hord r hmem
      have h4 : listMax (df.map DeviceRecord.fmax)
          - listMin (df.map DeviceRecord.fmin) = 0 := h0
      linarith
    rw [hs1, hs2]
    simp [envDy, transformY, scaleF, hff]
  · have h0k : yRange (df.map (scaleF k)) ≠ 0 := by
      rw [hyr]
      exact mul_ne_zero (ne_of_gt hk) h0
    have hs1 : scaleY false (some df) = xRange df / yRange df := by
      simp [scaleY, h0]
    have hs2 : scaleY false (some (df.map (scaleF k)))
        = xRange df / (k * yRange df) := by
      have h1 : scaleY false (some (df.map (scaleF k)))
          = xRange (df.map (scaleF k)) / yRange (df.map (scaleF k)) := by
        simp [scaleY, h0k]
      rw [h1, hxr, hyr]
    rw [hs1, hs2]
    have hkne : k ≠ 0 := ne_of_gt hk
    simp only [envDy, transformY, scaleF]
    field_simp
    ring

/-- C5 witness: the one-record dataset `(0, 1, 2, 5)` rescaled by 3 keeps the
record's rotation angle. -/
theorem linear_angle_invariant_witness :
    envAngle false (scaleY false (some ([⟨0, 1, 2, 5⟩].map (scaleF 3))))
        (scaleF 3 ⟨0, 1, 2, 5⟩).pmin (scaleF 3 ⟨0, 1, 2, 5⟩).pmax
        (scaleF 3 ⟨0, 1, 2, 5⟩).fmin (scaleF 3 ⟨0, 1, 2, 5⟩).fmax
      = envAngle false (scaleY false (some [⟨0, 1, 2, 5⟩]))
          (DeviceRecord.mk 0 1 2 5).pmin (DeviceRecord.mk 0 1 2 5).pmax
          (DeviceRecord.mk 0 1 2 5).fmin (DeviceRecord.mk 0 1 2 5).fmax :=
  linear_angle_invariant_under_y_rescale [⟨0, 1, 2, 5⟩] ⟨0, 1, 2, 5⟩ 3
    (by simp) (by intro s hs; rw [List.mem_singleton] at hs; subst hs; exact (by norm_num : (2:ℝ) ≤ 5))
    (by norm_num)

/-! ## Log-mode zero-width segments -/

/-- C10: in log mode, a record with `pmin = pmax` but `fmin ≠ fmax` (both
positive) has `dist > 0`, so a full 100-point polyline is produced, yet the
semi-minor axis `b = (dx*dy)/(2*dist)` is 0 and every boundary x value
equals `pmin` — a zero-width vertical segment; symmetrically, `fmin = fmax`
with `pmin ≠ pmax` gives `b = 0` and every boundary y value equal to
`fmin`. -/
theorem log_degenerate_axis_segments (pmin pmax fmin fmax : ℝ)
    (ctx : Option (List DeviceRecord)) (hf1 : 0 < fmin) (hf2 : 0 < fmax) :
    (pmin = pmax → fmin ≠ fmax →
      (getEnvelopeCoords true pmin pmax fmin fmax ctx).1.length = 100
      ∧ (getEnvelopeCoords true pmin pmax fmin fmax ctx).2.length = 100
      ∧ envB true (scaleY true ctx) pmin pmax fmin fmax = 0
      ∧ ∀ x ∈ (getEnvelopeCoords true pmin pmax fmin fmax ctx).1, x = pmin)
    ∧ (fmin = fmax → pmin ≠ pmax →
      (getEnvelopeCoords true pmin pmax fmin fmax ctx).1.length = 100
      ∧ (getEnvelopeCoords true pmin pmax fmin fmax ctx).2.length = 100
      ∧ envB true (scaleY true ctx) pmin pmax fmin fmax = 0
      ∧ ∀ y ∈ (getEnvelopeCoords true pmin pmax fmin fmax ctx).2, y = fmin) := by
  have hsy : scaleY true ctx = 1 := by
    cases ctx with
    | none => rfl
    | some df => simp [scaleY]
  have hg : getEnvelopeCoords true pmin pmax fmin fmax ctx
      = envelopeCore true 1 pmin pmax fmin fmax := by
    show envelopeCore true (scaleY true ctx) pmin pmax fmin fmax = _
    rw [hsy]
  rw [hg, hsy]
  constructor
  · intro hp hff
    subst hp
    have hdx0 : envDx pmin pmin = 0 := sub_self pmin
    have hlog : Real.logb 10 fmin ≠ Real.logb 10 fmax := by
      rcases lt_or_gt_of_ne hff with h | h
      · exact ne_of_lt (Real.logb_lt_logb (by norm_num) hf1 h)
      · exact (ne_of_lt (Real.logb_lt_logb (by norm_num) hf2 h)).symm
    have hdy : envDy true 1 fmin fmax ≠ 0 := by
      simp only [envDy, transformY, if_pos rfl, mul_one, sub_ne_zero]
      exact fun h => hlog h.symm
    have hdist_pos : 0 < envDist true 1 pmin pmin fmin fmax := by
      rw [envDist]
      apply Real.sqrt_pos.mpr
      have h2 : 0 < envDy true 1 fmin fmax ^ 2 := pow_two_pos_of_ne_zero hdy
      rw [hdx0]
      norm_num
      exact h2
    have hdist_ne : envDist true 1 pmin pmin fmin fmax ≠ 0 := ne_of_gt hdist_pos
    have hb0 : envB true 1 pmin pmin fmin fmax = 0 := by
      rw [envB, if_pos rfl, hdx0, zero_mul, zero_div]
    have hcos : Real.cos (envAngle true 1 pmin pmin fmin fmax) = 0 := by
      rw [envAngle, hdx0, arctan2]
      rcases lt_or_gt_of_ne hdy with h | h
      · rw [if_neg (lt_irrefl 0), if_neg (lt_irrefl 0), if_neg (not_lt.mpr h.le),
          if_pos h, Real.cos_neg, Real.cos_pi_div_two]
      · rw [if_neg (lt_irrefl 0), if_neg (lt_irrefl 0), if_pos h, Real.cos_pi_div_two]
    refine ⟨?_, ?_, hb0, ?_⟩
    · rw [envelopeCore, if_neg hdist_ne]
      simp
    · rw [envelopeCore, if_neg hdist_ne]
      simp
    · intro x hx
      rw [envelopeCore, if_neg hdist_ne] at hx
      simp only [List.mem_map, List.mem_range] at hx
      obtain ⟨j, hj, rfl⟩ := hx
      rw [hcos, hb0, envCx]
      ring
  · intro hf hp
    subst hf
    have hdy0 : envDy true 1 fmin fmin = 0 := sub_self _
    have hdx : envDx pmin pmax ≠ 0 := sub_ne_zero.mpr (Ne.symm hp)
    have hdist_pos : 0 < envDist true 1 pmin pmax fmin fmin := by
      rw [envDist]
      apply Real.sqrt_pos.mpr
      have h2 : 0 < envDx pmin pmax ^ 2 := pow_two_pos_of_ne_zero hdx
      rw [hdy0]
      norm_num
      exact h2
    have hdist_ne : envDist true 1 pmin pmax fmin fmin ≠ 0 := ne_of_gt hdist_pos
    have hb0 : envB true 1 pmin pmax fmin fmin = 0 := by
      rw [envB, if_pos rfl, hdy0, mul_zero, zero_div]
    have hsin : Real.sin (envAngle true 1 pmin pmax fmin fmin) = 0 := by
      rw [envAngle, hdy0, arctan2]
      rcases lt_trichotomy (envDx pmin pmax) 0 with h | h | h
      · rw [if_neg (not_lt.mpr h.le), if_pos h, if_pos (le_refl (0:ℝ)), zero_div,
          Real.arctan_zero, zero_add, Real.sin_pi]
      · exact absurd h hdx
      · rw [if_pos h, zero_div, Real.arctan_zero, Real.sin_zero]
    have hcy : envCy true 1 fmin fmin = Real.logb 10 fmin := by
      have h : transformY true fmin = Real.logb 10 fmin := by simp [transformY]
      rw [envCy, h, mul_one]
      ring
    refine ⟨?_, ?_, hb0, ?_⟩
    · rw [envelopeCore, if_neg hdist_ne]
      simp
    · rw [envelopeCore, if_neg hdist_ne]
      simp
    · intro y hy
      rw [envelopeCore, if_neg hdist_ne] at hy
      simp only [List.mem_map, List.mem_range] at hy
      obtain ⟨j, hj, rfl⟩ := hy
      rw [hsin, hb0]
      have harg : (envCy true 1 fmin fmin +
          (envA true 1 pmin pmax fmin fmin * Real.cos (tval j) * 0 +
            0 * Real.sin (tval j) *
              Real.cos (envAngle true 1 pmin pmax fmin fmin))) / 1
          = Real.logb 10 fmin := by
        rw [hcy]
        ring
      rw [harg]
      show (10 : ℝ) ^ Real.logb 10 fmin = fmin
      exact Real.rpow_logb (by norm_num) (by norm_num) hf1

/-- C10 witness: the log-mode record `(1, 1, 1, 10)` produces a 100-point
polyline whose every x value is 1, with semi-minor axis 0. -/
theorem log_degenerate_axis_segments_witness :
    (getEnvelopeCoords true 1 1 1 10 none).1.length = 100
    ∧ (getEnvelopeCoords true 1 1 1 10 none).2.length = 100
    ∧ envB true (scaleY true none) 1 1 1 10 = 0
    ∧ ∀ x ∈ (getEnvelopeCoords true 1 1 1 10 none).1, x = 1 :=
  (log_degenerate_axis_segments 1 1 1 10 none (by norm_num) (by norm_num)).1 rfl
    (by norm_num)
